import Mathlib

/-!
Shallow embedding of the liftbridge metadata FSM (src/server/fsm.go) and the
commit log segment (src/server/commitlog/segment.go), with theorems about the
behaviour the design document ascribes to them.

Machine integers are modelled as Nat or Int with explicit bounds where they
matter.  Fallible Go functions become Except or Option values.  Go code that
is referenced but absent from the sources (the Partition and MetadataStore
methods, the protobuf Marshal and Unmarshal) is modelled from the design
document; each such definition carries a doc comment saying so.
-/

namespace Liftbridge

/-! ## Metadata model (proto.Partition and the MetadataStore) -/

/-- Partition metadata, mirroring the fields of proto.Partition used by the
FSM: stream name, 32-bit id, replica set, ISR, leader, epoch, leader epoch
and the paused flag.  Epochs are uint64 values, modelled as Nat. -/
structure Partition where
  stream : String
  id : Int
  replicas : List String
  isr : List String
  leader : String
  epoch : Nat
  leaderEpoch : Nat
  paused : Bool
deriving DecidableEq, Repr

/-- The in-memory metadata store, modelled as the list of partitions in
insertion order.  The store keys partitions by the pair (stream, id). -/
abbrev Metadata := List Partition

/-- Errors arising from FSM operations.  The sentinel errors ErrPartitionExists,
ErrStreamNotFound and ErrPartitionNotFound are distinct constructors, and the
non-sentinel errors built with fmt.Errorf or errors.Wrap in fsm.go are modelled
by dedicated constructors so that equality with a sentinel is decidable, as
pointer equality is in Go. -/
inductive FsmError where
  | partitionExists
  | streamNotFound
  | partitionNotFound
  | noSuchPartition (stream : String) (id : Int)
  | wrapped (msg : String)
  | unknownOp
deriving DecidableEq, Repr

/-- Key equality test used by the MetadataStore: partitions are identified by
the pair (stream, id). -/
def Partition.hasKey (p : Partition) (stream : String) (id : Int) : Bool :=
  p.stream = stream && p.id = id

/-- Modelled from the spec: MetadataStore.GetPartition(stream, id) returns the
partition with the given key, if present (source for the MetadataStore is not
under src). -/
def getPartition (m : Metadata) (stream : String) (id : Int) : Option Partition :=
  m.find? (fun p => p.hasKey stream id)

/-- Modelled from the spec: MetadataStore.AddPartition returns
ErrPartitionExists when a partition with the same (stream, id) key exists and
otherwise adds the partition, leaving all existing partitions unchanged. -/
def addPartition (m : Metadata) (p : Partition) : Except FsmError Metadata :=
  match getPartition m p.stream p.id with
  | some _ => .error .partitionExists
  | none => .ok (m ++ [p])

/-- Replace the partition with the given key by the given new value, leaving
every other partition unchanged. -/
def updatePartition (m : Metadata) (stream : String) (id : Int)
    (p : Partition) : Metadata :=
  m.map (fun q => if q.hasKey stream id then p else q)

/-- Modelled from the spec: Partition.RemoveFromISR removes the replica from
the ISR set and fails if the replica is unknown. -/
def Partition.removeFromISR (p : Partition) (replica : String) :
    Except FsmError Partition :=
  if replica ∈ p.replicas then
    .ok { p with isr := p.isr.erase replica }
  else
    .error (.wrapped "not a replica")

/-- Modelled from the spec: Partition.AddToISR adds the replica to the ISR set
and fails if the replica is unknown. -/
def Partition.addToISR (p : Partition) (replica : String) :
    Except FsmError Partition :=
  if replica ∈ p.replicas then
    .ok { p with isr := if replica ∈ p.isr then p.isr else p.isr ++ [replica] }
  else
    .error (.wrapped "not a replica")

/-- Modelled from the spec: Partition.SetLeader updates the leader and the
leader epoch. -/
def Partition.setLeader (p : Partition) (leader : String) (epoch : Nat) :
    Except FsmError Partition :=
  .ok { p with leader := leader, leaderEpoch := epoch }

/-- Partition.SetEpoch, a plain field update per the spec. -/
def Partition.setEpoch (p : Partition) (epoch : Nat) : Partition :=
  { p with epoch := epoch }

/-- Modelled from the spec: MetadataStore.CloseAndDeleteStream removes every
partition of the stream from the store. -/
def closeAndDeleteStream (m : Metadata) (stream : String) : Metadata :=
  m.filter (fun p => !(p.stream = stream : Bool))

/-- Modelled from the spec: Stream.Pause toggles the paused flag of the named
partitions of the stream, failing with ErrPartitionNotFound when a named
partition does not exist. -/
def pauseStream (m : Metadata) (stream : String) (partitions : List Int)
    (resumeAll : Bool) : Except FsmError Metadata :=
  if partitions.all (fun id => (getPartition m stream id).isSome) then
    .ok (m.map (fun p =>
      if p.stream = stream && partitions.contains p.id then
        { p with paused := !resumeAll }
      else p))
  else
    .error .partitionNotFound

/-! ## FSM apply functions (src/server/fsm.go) -/

/-- The applyCreatePartition function of fsm.go: add the partition to the
metadata store; ErrPartitionExists is returned verbatim and any other failure
is wrapped. -/
def applyCreatePartition (m : Metadata) (p : Partition) :
    Except FsmError Metadata :=
  match addPartition m p with
  | .error .partitionExists => .error .partitionExists
  | .error _ => .error (.wrapped "failed to add partition to metadata store")
  | .ok m1 => .ok m1

/-- The applyShrinkISR function of fsm.go: look up the partition, return a
generic error (fmt.Errorf) when it is missing, do nothing when the partition
epoch is at least the given epoch, otherwise remove the replica from the ISR
and set the partition epoch. -/
def applyShrinkISR (m : Metadata) (stream replica : String) (partitionID : Int)
    (epoch : Nat) : Except FsmError Metadata :=
  match getPartition m stream partitionID with
  | none => .error (.noSuchPartition stream partitionID)
  | some partition =>
    if partition.epoch ≥ epoch then
      .ok m
    else
      match partition.removeFromISR replica with
      | .error _ => .error (.wrapped "failed to remove from ISR")
      | .ok p1 =>
        .ok (updatePartition m stream partitionID (p1.setEpoch epoch))

/-- The applyExpandISR function of fsm.go: look up the partition, return a
generic error (fmt.Errorf) when it is missing, do nothing when the partition
epoch is at least the given epoch, otherwise add the replica to the ISR and
set the partition epoch. -/
def applyExpandISR (m : Metadata) (stream replica : String) (partitionID : Int)
    (epoch : Nat) : Except FsmError Metadata :=
  match getPartition m stream partitionID with
  | none => .error (.noSuchPartition stream partitionID)
  | some partition =>
    if partition.epoch ≥ epoch then
      .ok m
    else
      match partition.addToISR replica with
      | .error _ => .error (.wrapped "failed to add to ISR")
      | .ok p1 =>
        .ok (updatePartition m stream partitionID (p1.setEpoch epoch))

/-- The applyChangeStreamLeader function of fsm.go: look up the partition,
return a generic error (fmt.Errorf) when it is missing, do nothing when the
partition epoch is at least the given epoch, otherwise set the leader and the
partition epoch. -/
def applyChangeStreamLeader (m : Metadata) (stream leader : String)
    (partitionID : Int) (epoch : Nat) : Except FsmError Metadata :=
  match getPartition m stream partitionID with
  | none => .error (.noSuchPartition stream partitionID)
  | some partition =>
    if partition.epoch ≥ epoch then
      .ok m
    else
      match partition.setLeader leader epoch with
      | .error _ => .error (.wrapped "failed to change partition leader")
      | .ok p1 =>
        .ok (updatePartition m stream partitionID (p1.setEpoch epoch))

/-- The applyDeleteStream function of fsm.go: ErrStreamNotFound when the
stream does not exist, otherwise delete all of its partitions. -/
def applyDeleteStream (m : Metadata) (stream : String) :
    Except FsmError Metadata :=
  if m.any (fun p => p.stream = stream) then
    .ok (closeAndDeleteStream m stream)
  else
    .error .streamNotFound

/-- The applyPauseStream function of fsm.go: ErrStreamNotFound when the stream
does not exist, ErrPartitionNotFound passed through from Stream.Pause, other
failures wrapped. -/
def applyPauseStream (m : Metadata) (stream : String) (partitions : List Int)
    (resumeAll : Bool) : Except FsmError Metadata :=
  if m.any (fun p => p.stream = stream) then
    match pauseStream m stream partitions resumeAll with
    | .error .partitionNotFound => .error .partitionNotFound
    | .error _ => .error (.wrapped "failed to pause stream")
    | .ok m1 => .ok m1
  else
    .error .streamNotFound

/-- The RaftLog operation payloads dispatched by the apply function of
fsm.go.  For the ISR and leader operations the effective epoch is the Raft
entry index, passed separately to apply. -/
inductive RaftOp where
  | createPartition (p : Partition)
  | shrinkISR (stream replica : String) (partition : Int)
  | changeLeader (stream leader : String) (partition : Int)
  | expandISR (stream replica : String) (partition : Int)
  | deleteStream (stream : String)
  | pauseStream (stream : String) (partitions : List Int) (resumeAll : Bool)
deriving DecidableEq, Repr

/-- The apply function of fsm.go: dispatch on the operation.  The result pair
holds the value made available on the ApplyFuture (a sentinel error or none)
and the new metadata; an Except error is the path on which the caller Apply
panics unless the server is shutting down. -/
def applyFsm (m : Metadata) (op : RaftOp) (index : Nat) :
    Except FsmError (Option FsmError × Metadata) :=
  match op with
  | .createPartition p =>
    let p1 := { p with leaderEpoch := index, epoch := index }
    match applyCreatePartition m p1 with
    | .error .partitionExists => .ok (some .partitionExists, m)
    | .error e => .error e
    | .ok m1 => .ok (none, m1)
  | .shrinkISR stream replica partition =>
    match applyShrinkISR m stream replica partition index with
    | .error e => .error e
    | .ok m1 => .ok (none, m1)
  | .changeLeader stream leader partition =>
    match applyChangeStreamLeader m stream leader partition index with
    | .error e => .error e
    | .ok m1 => .ok (none, m1)
  | .expandISR stream replica partition =>
    match applyExpandISR m stream replica partition index with
    | .error e => .error e
    | .ok m1 => .ok (none, m1)
  | .deleteStream stream =>
    match applyDeleteStream m stream with
    | .error .streamNotFound => .ok (some .streamNotFound, m)
    | .error e => .error e
    | .ok m1 => .ok (none, m1)
  | .pauseStream stream partitions resumeAll =>
    match applyPauseStream m stream partitions resumeAll with
    | .error .streamNotFound => .ok (some .streamNotFound, m)
    | .error .partitionNotFound => .ok (some .partitionNotFound, m)
    | .error e => .error e
    | .ok m1 => .ok (none, m1)

/-! ## Snapshot encoding (fsmSnapshot.Persist and Server.Restore of fsm.go)

The protobuf Marshal and Unmarshal of proto.MetadataSnapshot are not under
src, so the byte encoding of the snapshot body is modelled from the spec; the
4-byte big-endian size prefix written by Persist and consumed by Restore is
taken from fsm.go itself. -/

/-- Big-endian byte encoding of a natural number on k bytes (the value is
taken modulo 256 to the k). -/
def natToBytesBE : Nat → Nat → List Nat
  | 0, _ => []
  | k + 1, n => natToBytesBE k (n / 256) ++ [n % 256]

/-- Big-endian interpretation of a byte list as a natural number. -/
def bytesToNatBE (bs : List Nat) : Nat :=
  bs.foldl (fun acc b => acc * 256 + b) 0

/-- Split off the first k bytes of a buffer, failing when the buffer is too
short (the behaviour of io.ReadFull in Restore). -/
def takeBytes (k : Nat) (bs : List Nat) : Option (List Nat × List Nat) :=
  if k ≤ bs.length then some (bs.take k, bs.drop k) else none

/-- Decode a k-byte big-endian natural number from the front of a buffer. -/
def decodeNatBE (k : Nat) (bs : List Nat) : Option (Nat × List Nat) :=
  (takeBytes k bs).map (fun c => (bytesToNatBE c.1, c.2))

/-- Modelled from the spec: the snapshot encoding of a character, as the
4-byte big-endian code point. -/
def encodeChar (c : Char) : List Nat :=
  natToBytesBE 4 c.toNat

/-- Modelled from the spec: the snapshot encoding of a string, as a 4-byte
length followed by the encoded characters. -/
def encodeString (s : String) : List Nat :=
  natToBytesBE 4 s.data.length ++ (s.data.map encodeChar).flatten

/-- Decode a run of k characters. -/
def decodeChars : Nat → List Nat → Option (List Char × List Nat)
  | 0, bs => some ([], bs)
  | k + 1, bs =>
    match decodeNatBE 4 bs with
    | none => none
    | some (n, bs1) =>
      match decodeChars k bs1 with
      | none => none
      | some (cs, bs2) => some (Char.ofNat n :: cs, bs2)

/-- Decode a string. -/
def decodeString (bs : List Nat) : Option (String × List Nat) :=
  match decodeNatBE 4 bs with
  | none => none
  | some (len, bs1) =>
    match decodeChars len bs1 with
    | none => none
    | some (cs, bs2) => some (String.mk cs, bs2)

/-- Modelled from the spec: the snapshot encoding of a 32-bit integer, in
two's complement. -/
def encodeInt32 (i : Int) : List Nat :=
  natToBytesBE 4 (i % (2 ^ 32 : Int)).toNat

/-- Decode a 32-bit two's complement integer. -/
def decodeInt32 (bs : List Nat) : Option (Int × List Nat) :=
  match decodeNatBE 4 bs with
  | none => none
  | some (n, bs1) =>
    some (if n < 2 ^ 31 then (n : Int) else (n : Int) - 2 ^ 32, bs1)

/-- Modelled from the spec: the snapshot encoding of a list of strings. -/
def encodeStringList (l : List String) : List Nat :=
  natToBytesBE 4 l.length ++ (l.map encodeString).flatten

/-- Decode a run of k strings. -/
def decodeStrings : Nat → List Nat → Option (List String × List Nat)
  | 0, bs => some ([], bs)
  | k + 1, bs =>
    match decodeString bs with
    | none => none
    | some (s, bs1) =>
      match decodeStrings k bs1 with
      | none => none
      | some (ss, bs2) => some (s :: ss, bs2)

/-- Decode a list of strings. -/
def decodeStringList (bs : List Nat) : Option (List String × List Nat) :=
  match decodeNatBE 4 bs with
  | none => none
  | some (len, bs1) => decodeStrings len bs1

/-- Modelled from the spec: the snapshot encoding of a boolean, on one
byte. -/
def encodeBool (b : Bool) : List Nat :=
  [if b then 1 else 0]

/-- Decode a boolean. -/
def decodeBool (bs : List Nat) : Option (Bool × List Nat) :=
  match bs with
  | [] => none
  | b :: rest => some (b != 0, rest)

/-- Modelled from the spec: the snapshot encoding of one proto.Partition. -/
def encodePartition (p : Partition) : List Nat :=
  encodeString p.stream ++ encodeInt32 p.id ++ encodeStringList p.replicas ++
    encodeStringList p.isr ++ encodeString p.leader ++
    natToBytesBE 8 p.epoch ++ natToBytesBE 8 p.leaderEpoch ++
    encodeBool p.paused

/-- Decode one proto.Partition. -/
def decodePartition (bs : List Nat) : Option (Partition × List Nat) :=
  match decodeString bs with
  | none => none
  | some (stream, bs1) =>
    match decodeInt32 bs1 with
    | none => none
    | some (id, bs2) =>
      match decodeStringList bs2 with
      | none => none
      | some (replicas, bs3) =>
        match decodeStringList bs3 with
        | none => none
        | some (isr, bs4) =>
          match decodeString bs4 with
          | none => none
          | some (leader, bs5) =>
            match decodeNatBE 8 bs5 with
            | none => none
            | some (epoch, bs6) =>
              match decodeNatBE 8 bs6 with
              | none => none
              | some (leaderEpoch, bs7) =>
                match decodeBool bs7 with
                | none => none
                | some (paused, bs8) =>
                  some (⟨stream, id, replicas, isr, leader, epoch,
                    leaderEpoch, paused⟩, bs8)

/-- Decode a run of k partitions. -/
def decodePartitions : Nat → List Nat → Option (List Partition × List Nat)
  | 0, bs => some ([], bs)
  | k + 1, bs =>
    match decodePartition bs with
    | none => none
    | some (p, bs1) =>
      match decodePartitions k bs1 with
      | none => none
      | some (ps, bs2) => some (p :: ps, bs2)

/-- Modelled from the spec: MetadataSnapshot.Marshal, a 4-byte partition
count followed by the encoded partitions. -/
def marshalSnapshot (ps : List Partition) : List Nat :=
  natToBytesBE 4 ps.length ++ (ps.map encodePartition).flatten

/-- Modelled from the spec: MetadataSnapshot.Unmarshal, consuming the whole
buffer. -/
def unmarshalSnapshot (bs : List Nat) : Option (List Partition) :=
  match decodeNatBE 4 bs with
  | none => none
  | some (n, bs1) =>
    match decodePartitions n bs1 with
    | some (ps, []) => some ps
    | _ => none

/-- The Snapshot callback of fsm.go collects the partitions of every stream
of the metadata store into a MetadataSnapshot. -/
def snapshotFsm (m : Metadata) : List Partition := m

/-- The fsmSnapshot.Persist function of fsm.go:  marshal the snapshot, then
write a 4-byte big-endian size followed by the marshalled bytes to the sink.
The Go code converts the length with uint32, hence modulo 2 to the 32. -/
def persistSnapshot (ps : List Partition) : List Nat :=
  let b := marshalSnapshot ps
  natToBytesBE 4 b.length ++ b

/-- The restore loop of the Restore callback: recreate the partitions of the
snapshot one after the other through applyCreatePartition, stopping at the
first error, as the range loop in Restore does. -/
def createAll (acc : Metadata) : List Partition → Except FsmError Metadata
  | [] => .ok acc
  | p :: ps =>
    match applyCreatePartition acc p with
    | .error e => .error e
    | .ok acc1 => createAll acc1 ps

/-- The Restore callback of fsm.go: read a 4-byte big-endian size, read that
many bytes, unmarshal them, reset the metadata store, and recreate every
partition of the snapshot through applyCreatePartition with recovered set to
false.  The incoming store is discarded entirely. -/
def restoreFsm (bs : List Nat) : Except FsmError Metadata :=
  match takeBytes 4 bs with
  | none => .error (.wrapped "read snapshot size failed")
  | some (sizeBuf, rest) =>
    let size := bytesToNatBE sizeBuf
    match takeBytes size rest with
    | none => .error (.wrapped "read snapshot failed")
    | some (buf, _) =>
      match unmarshalSnapshot buf with
      | none => .error (.wrapped "unmarshal failed")
      | some ps =>
        createAll ([] : Metadata) ps

/-- Wellformedness of one partition for the snapshot encoding: the id fits in
an int32, the epochs fit in a uint64, and the string and list lengths fit in
a uint32. -/
def Partition.wf (p : Partition) : Prop :=
  -(2 ^ 31) ≤ p.id ∧ p.id < 2 ^ 31 ∧
    p.epoch < 2 ^ 64 ∧ p.leaderEpoch < 2 ^ 64 ∧
    p.stream.data.length < 2 ^ 32 ∧ p.leader.data.length < 2 ^ 32 ∧
    p.replicas.length < 2 ^ 32 ∧ p.isr.length < 2 ^ 32 ∧
    (∀ s ∈ p.replicas, s.data.length < 2 ^ 32) ∧
    (∀ s ∈ p.isr, s.data.length < 2 ^ 32)

instance (p : Partition) : Decidable p.wf := by
  unfold Partition.wf; infer_instance

/-- Distinctness of the (stream, id) keys of a metadata store. -/
def keysDistinct (m : Metadata) : Prop :=
  m.Pairwise (fun p q => ¬(p.stream = q.stream ∧ p.id = q.id))

instance (m : Metadata) : Decidable (keysDistinct m) := by
  unfold keysDistinct; infer_instance

/-- Wellformedness of a metadata store for the snapshot round trip. -/
def Metadata.wf (m : Metadata) : Prop :=
  m.length < 2 ^ 32 ∧ (∀ p ∈ m, p.wf) ∧ keysDistinct m ∧
    (marshalSnapshot m).length < 2 ^ 32

instance (m : Metadata) : Decidable m.wf := by
  unfold Metadata.wf; infer_instance

/-! ## Recovery barrier (recoverLatestCommittedFSMLog and Apply of fsm.go) -/

/-- The type tag of a Raft log entry: a command entry or any other entry
kind (configuration changes and the like). -/
inductive RaftLogType where
  | command
  | other
deriving DecidableEq, Repr

/-- The Raft log store, giving the entry type at each index; none models a
GetLog failure for that index. -/
abbrev RaftStore := Nat → Option RaftLogType

/-- The descending loop of recoverLatestCommittedFSMLog: iterate from i down
towards firstIndex with the given number of remaining iterations, returning
nil when the entry being applied is the commit index, the index of the first
command entry found, an error when GetLog fails, and nil when the loop
exhausts. -/
def scanBack (store : RaftStore) (applyIndex commitIndex : Nat) :
    Nat → Nat → Except Unit (Option Nat)
  | _, 0 => .ok none
  | i, steps + 1 =>
    if i = applyIndex ∧ applyIndex = commitIndex then
      .ok none
    else
      match store i with
      | none => .error ()
      | some .command => .ok (some i)
      | some .other => scanBack store applyIndex commitIndex (i - 1) steps

/-- The recoverLatestCommittedFSMLog function of fsm.go: nil when the log is
empty (firstIndex zero), otherwise scan backwards from commitIndex to
firstIndex for the newest command entry. -/
def recoverLatestCommittedFSMLog (store : RaftStore)
    (commitIndex firstIndex applyIndex : Nat) : Except Unit (Option Nat) :=
  if firstIndex = 0 then
    .ok none
  else
    scanBack store applyIndex commitIndex commitIndex
      (commitIndex + 1 - firstIndex)

/-- The recovery bookkeeping state of the Server used by Apply. -/
structure RecoveryState where
  recoveryStarted : Bool
  latestRecoveredLog : Option Nat
deriving DecidableEq, Repr

/-- The outcome of the recovery bookkeeping of one Apply call: the new
recovery state, whether the entry is applied with recovered set, and whether
finishedRecovery is invoked for this entry. -/
structure RecoveryStep where
  state : RecoveryState
  recovered : Bool
  finishedRecoveryCalled : Bool
deriving DecidableEq, Repr

/-- The recovery portion of the Apply function of fsm.go: on the first call
compute the recovery barrier with recoverLatestCommittedFSMLog (an error here
is a panic), then mark the entry recovered when its index is at most the
barrier index, and invoke finishedRecovery exactly on the barrier index, at
which point the barrier is dropped. -/
def applyRecovery (store : RaftStore) (commitIndex firstIndex : Nat)
    (st : RecoveryState) (lIndex : Nat) : Except Unit RecoveryStep :=
  match
    (if st.recoveryStarted then
      .ok st
    else
      match recoverLatestCommittedFSMLog store commitIndex firstIndex lIndex with
      | .error e => .error e
      | .ok last => .ok ⟨true, last⟩ : Except Unit RecoveryState)
  with
  | .error e => .error e
  | .ok st1 =>
    match st1.latestRecoveredLog with
    | some b =>
      if lIndex ≤ b then
        if lIndex = b then
          .ok ⟨⟨st1.recoveryStarted, none⟩, true, true⟩
        else
          .ok ⟨st1, true, false⟩
      else
        .ok ⟨st1, false, false⟩
    | none => .ok ⟨st1, false, false⟩

/-! ## Segment model (src/server/commitlog/segment.go)

Channels are modelled by a channel system: a counter of allocated channel
identities and the set of closed ones.  Closing a channel twice is a Go
runtime panic, modelled as a failure of closeChan. -/

/-- An index entry of the commit log: absolute offset, byte position in the
log file and timestamp. -/
structure Entry where
  offset : Int
  position : Int
  timestamp : Int
deriving DecidableEq, Repr

/-- The channel system: how many one-shot channels have been created, and
which of them are closed. -/
structure ChanSys where
  count : Nat
  closedSet : List Nat
deriving DecidableEq, Repr

/-- Allocate a fresh open channel. -/
def ChanSys.makeChan (cs : ChanSys) : ChanSys × Nat :=
  ({ cs with count := cs.count + 1 }, cs.count)

/-- Close a channel; closing an already closed channel is a runtime panic,
modelled as none. -/
def ChanSys.closeChan (cs : ChanSys) (id : Nat) : Option ChanSys :=
  if id ∈ cs.closedSet then none
  else some { cs with closedSet := id :: cs.closedSet }

/-- The segment state: log file bytes, index entries, offsets, write times,
byte position, size limit, registered waiters (waiter identity to channel)
and the sealed, closed and replaced flags. -/
structure Segment where
  logData : List Nat
  indexEntries : List Entry
  baseOffset : Int
  firstOffset : Int
  lastOffset : Int
  firstWriteTime : Int
  lastWriteTime : Int
  position : Int
  maxBytes : Int
  waiters : List (Nat × Nat)
  sealed : Bool
  closed : Bool
  replaced : Bool
deriving DecidableEq, Repr

/-- A fresh segment as built by newSegment on a new file: empty, offsets -1,
no waiters, no flags set. -/
def newSegment (baseOffset maxBytes : Int) : Segment :=
  { logData := [], indexEntries := [], baseOffset := baseOffset,
    firstOffset := -1, lastOffset := -1, firstWriteTime := 0,
    lastWriteTime := 0, position := 0, maxBytes := maxBytes, waiters := [],
    sealed := false, closed := false, replaced := false }

/-- Errors and panics of segment operations. -/
inductive SegError where
  | segmentClosed
  | segmentReplaced
  | doubleClosePanic
  | emptyEntriesPanic
deriving DecidableEq, Repr

/-- Close the channels of all listed waiters in order, failing on a double
close. -/
def closeAllChans (cs : ChanSys) : List (Nat × Nat) → Option ChanSys
  | [] => some cs
  | x :: rest =>
    match cs.closeChan x.2 with
    | none => none
    | some cs1 => closeAllChans cs1 rest

/-- The notifyWaiters function of segment.go: close every waiter channel and
drop all waiters from the map. -/
def notifyWaiters (s : Segment) (cs : ChanSys) : Option (Segment × ChanSys) :=
  match closeAllChans cs s.waiters with
  | none => none
  | some cs1 => some ({ s with waiters := [] }, cs1)

/-- The write function of segment.go: fail with ErrSegmentClosed on a closed
segment; otherwise append the bytes, advance the position, set the first
offset and first write time when the first write time is zero, always set the
last offset and last write time from the last entry (a Go index panic when
entries is empty), and notify the waiters. -/
def segWrite (s : Segment) (cs : ChanSys) (p : List Nat)
    (entries : List Entry) : Except SegError (Segment × ChanSys × Nat) :=
  if s.closed then .error .segmentClosed
  else
    let n := p.length
    let s1 := { s with logData := s.logData ++ p, position := s.position + (n : Int) }
    match entries with
    | [] => .error .emptyEntriesPanic
    | first :: rest =>
      let s2 :=
        if s1.firstWriteTime = (0 : Int) then
          { s1 with firstOffset := first.offset,
                    firstWriteTime := first.timestamp }
        else s1
      let last := (first :: rest).getLast (List.cons_ne_nil _ _)
      let s3 := { s2 with lastOffset := last.offset,
                          lastWriteTime := last.timestamp }
      match notifyWaiters s3 cs with
      | none => .error .doubleClosePanic
      | some (s4, cs1) => .ok (s4, cs1, n)

/-- The WriteMessageSet function of segment.go: write the message set bytes
through write, then append the index entries. -/
def writeMessageSet (s : Segment) (cs : ChanSys) (ms : List Nat)
    (entries : List Entry) : Except SegError (Segment × ChanSys) :=
  match segWrite s cs ms entries with
  | .error e => .error e
  | .ok (s1, cs1, _) =>
    .ok ({ s1 with indexEntries := s1.indexEntries ++ entries }, cs1)

/-- The ReadAt function of segment.go: ErrSegmentReplaced on a closed and
replaced segment, ErrSegmentClosed on a closed one, otherwise the random read
at the given position. -/
def readAt (s : Segment) (off k : Nat) : Except SegError (List Nat) :=
  if s.closed then
    if s.replaced then .error .segmentReplaced else .error .segmentClosed
  else
    .ok ((s.logData.drop off).take k)

/-- The Seal function of segment.go: a no-op when already sealed, otherwise
mark sealed, notify the waiters and shrink the index (a file level operation
with no observable effect in this model). -/
def sealSeg (s : Segment) (cs : ChanSys) : Option (Segment × ChanSys) :=
  if s.sealed then some (s, cs)
  else notifyWaiters { s with sealed := true } cs

/-- Look up the channel registered for a waiter. -/
def lookupWaiter (s : Segment) (w : Nat) : Option Nat :=
  (s.waiters.find? (fun x => x.1 = w)).map (fun x => x.2)

/-- The waitForData function of segment.go: an already registered waiter gets
its existing channel back; otherwise a fresh channel is created and closed at
once when data past the position exists or the segment is full, and
registered otherwise. -/
def waitForData (s : Segment) (cs : ChanSys) (w : Nat) (pos : Int) :
    Segment × ChanSys × Nat :=
  match lookupWaiter s w with
  | some ch => (s, cs, ch)
  | none =>
    let r := cs.makeChan
    if s.position > pos ∨ s.position ≥ s.maxBytes then
      (s, { r.1 with closedSet := r.2 :: r.1.closedSet }, r.2)
    else
      ({ s with waiters := (w, r.2) :: s.waiters }, r.1, r.2)

/-- The WaitForLEO function of segment.go: when the last offset differs from
the given log end offset, return a fresh already closed channel, otherwise
wait for data past the current position. -/
def waitForLEO (s : Segment) (cs : ChanSys) (w : Nat) (leo : Int) :
    Segment × ChanSys × Nat :=
  if s.lastOffset ≠ leo then
    let r := cs.makeChan
    (s, { r.1 with closedSet := r.2 :: r.1.closedSet }, r.2)
  else
    waitForData s cs w s.position

/-- The removeWaiter function of segment.go: drop the waiter from the map,
leaving its channel untouched. -/
def removeWaiter (s : Segment) (w : Nat) : Segment :=
  { s with waiters := s.waiters.filter (fun x => !(x.1 == w)) }

/-- The Close function of segment.go: a no-op returning nil when already
closed, otherwise close the files and set the closed flag. -/
def segmentClose (s : Segment) : Except SegError Segment :=
  if s.closed then .ok s else .ok { s with closed := true }

/-- Reinitialization of the cached offsets from the index, as performed by
setupIndex when a segment file is opened. -/
def setupIndexSeg (s : Segment) : Segment :=
  match s.indexEntries.head?, s.indexEntries.getLast? with
  | some first, some last =>
    { s with firstOffset := first.offset, firstWriteTime := first.timestamp,
             lastOffset := last.offset, lastWriteTime := last.timestamp }
  | _, _ => s

/-- The Replace function of segment.go: close both segments, rename the
files of the callee over those of the old segment, reopen the callee with the
suffix cleared and its index reinitialized, and mark the old segment
replaced.  The result pair is the reopened new segment and the old one. -/
def replaceSeg (snew sold : Segment) : Except SegError (Segment × Segment) :=
  let sold1 := if sold.closed then sold else { sold with closed := true }
  let snew1 := if snew.closed then snew else { snew with closed := true }
  let snew2 := setupIndexSeg { snew1 with closed := false }
  .ok (snew2, { sold1 with replaced := true })

/-- The sequential operations a client can perform on one segment, used to
state the waiter safety invariant over arbitrary histories. -/
inductive SegOp where
  | write (ms : List Nat) (entries : List Entry)
  | sealOp
  | waitLEO (w : Nat) (leo : Int)
  | waitData (w : Nat) (pos : Int)
  | remove (w : Nat)
  | closeOp
deriving DecidableEq, Repr

/-- One step of segment history.  A write against a closed segment returns
ErrSegmentClosed to the caller and execution continues; panics (a double
close or an empty entry batch) stop the run. -/
def stepOp (s : Segment) (cs : ChanSys) :
    SegOp → Except SegError (Segment × ChanSys)
  | .write ms entries =>
    match writeMessageSet s cs ms entries with
    | .error .segmentClosed => .ok (s, cs)
    | .error e => .error e
    | .ok r => .ok r
  | .sealOp =>
    match sealSeg s cs with
    | none => .error .doubleClosePanic
    | some r => .ok r
  | .waitLEO w leo =>
    let r := waitForLEO s cs w leo
    .ok (r.1, r.2.1)
  | .waitData w pos =>
    let r := waitForData s cs w pos
    .ok (r.1, r.2.1)
  | .remove w => .ok (removeWaiter s w, cs)
  | .closeOp =>
    match segmentClose s with
    | .error e => .error e
    | .ok s1 => .ok (s1, cs)

/-- Run a list of segment operations. -/
def runOps (s : Segment) (cs : ChanSys) :
    List SegOp → Except SegError (Segment × ChanSys)
  | [] => .ok (s, cs)
  | op :: rest =>
    match stepOp s cs op with
    | .error e => .error e
    | .ok r => runOps r.1 r.2 rest

/-- The waiter safety invariant: waiter identities are distinct, their
channels are distinct, every registered channel is open and was allocated,
and closed channels were allocated. -/
def WaiterInv (s : Segment) (cs : ChanSys) : Prop :=
  (s.waiters.map Prod.fst).Nodup ∧ (s.waiters.map Prod.snd).Nodup ∧
    (∀ x ∈ s.waiters, x.2 ∉ cs.closedSet ∧ x.2 < cs.count) ∧
    ∀ id ∈ cs.closedSet, id < cs.count

instance (s : Segment) (cs : ChanSys) : Decidable (WaiterInv s cs) := by
  unfold WaiterInv; infer_instance

/-! ## Concrete fixtures used by counterexamples and witnesses -/

/-- A Raft store whose entries 0, 1 and 2 are command entries. -/
def storeC5 : RaftStore := fun i => if i ≤ 2 then some .command else none

/-- A segment with five bytes written and one waiter (identity 0, channel 0)
registered while waiting for data past position 5. -/
def segC8 : Segment :=
  { (newSegment 0 100) with
      position := 5, lastOffset := 4, waiters := [(0, 0)] }

/-- The channel system matching segC8: channel 0 allocated and open. -/
def csC8 : ChanSys := { count := 1, closedSet := [] }

/-- A concrete partition used to instantiate theorems: stream s, id 0,
replicas a and b, both in the ISR, leader a, epoch 5, leader epoch 1. -/
def pW : Partition :=
  { stream := "s", id := 0, replicas := ["a", "b"], isr := ["a", "b"],
    leader := "a", epoch := 5, leaderEpoch := 1, paused := false }

/-- A concrete metadata store holding only pW. -/
def mW : Metadata := [pW]

/-! ## Byte encoding lemmas -/

theorem length_natToBytesBE (k : Nat) : ∀ n, (natToBytesBE k n).length = k := by
  induction k with
  | zero => intro n; rfl
  | succ k ih => intro n; simp [natToBytesBE, ih]

theorem foldl_natToBytesBE (k : Nat) : ∀ n acc,
    (natToBytesBE k n).foldl (fun a b => a * 256 + b) acc =
      acc * 256 ^ k + n % 256 ^ k := by
  induction k with
  | zero => intro n acc; simp [natToBytesBE, Nat.mod_one]
  | succ k ih =>
    intro n acc
    rw [natToBytesBE, List.foldl_append, ih]
    simp only [List.foldl_cons, List.foldl_nil]
    have h : (256 : Nat) ^ (k + 1) = 256 * 256 ^ k := by ring
    rw [h, Nat.mod_mul]
    ring

theorem bytesToNatBE_natToBytesBE (k n : Nat) (h : n < 256 ^ k) :
    bytesToNatBE (natToBytesBE k n) = n := by
  unfold bytesToNatBE
  rw [foldl_natToBytesBE]
  simp [Nat.mod_eq_of_lt h]

theorem takeBytes_of_length_eq (bs rest : List Nat) (k : Nat)
    (h : bs.length = k) : takeBytes k (bs ++ rest) = some (bs, rest) := by
  subst h
  unfold takeBytes
  rw [if_pos (by simp), List.take_left, List.drop_left]

theorem decodeNatBE_append (k n : Nat) (rest : List Nat) (h : n < 256 ^ k) :
    decodeNatBE k (natToBytesBE k n ++ rest) = some (n, rest) := by
  unfold decodeNatBE
  rw [takeBytes_of_length_eq _ _ _ (length_natToBytesBE k n)]
  simp [bytesToNatBE_natToBytesBE k n h]

theorem char_toNat_lt (c : Char) : c.toNat < 256 ^ 4 := by
  have h1 : c.toNat = c.val.toNat := rfl
  have h2 := c.val.toNat_lt
  have h3 : (256 : Nat) ^ 4 = 2 ^ 32 := by norm_num
  omega

theorem decodeChars_append (cs : List Char) : ∀ rest : List Nat,
    decodeChars cs.length ((cs.map encodeChar).flatten ++ rest) =
      some (cs, rest) := by
  induction cs with
  | nil => intro rest; simp [decodeChars]
  | cons c cs ih =>
    intro rest
    rw [List.map_cons, List.flatten_cons, List.length_cons, List.append_assoc,
      decodeChars, encodeChar, decodeNatBE_append _ _ _ (char_toNat_lt c)]
    simp [ih, Char.ofNat_toNat]

theorem decodeString_append (s : String) (rest : List Nat)
    (h : s.data.length < 2 ^ 32) :
    decodeString (encodeString s ++ rest) = some (s, rest) := by
  have h4 : s.data.length < 256 ^ 4 := by
    have h3 : (256 : Nat) ^ 4 = 2 ^ 32 := by norm_num
    omega
  rw [encodeString, decodeString, List.append_assoc,
    decodeNatBE_append _ _ _ h4]
  simp only [decodeChars_append]

theorem decodeStrings_append (l : List String) : ∀ rest : List Nat,
    (∀ s ∈ l, s.data.length < 2 ^ 32) →
    decodeStrings l.length ((l.map encodeString).flatten ++ rest) =
      some (l, rest) := by
  induction l with
  | nil => intro rest _; simp [decodeStrings]
  | cons s l ih =>
    intro rest h
    rw [List.map_cons, List.flatten_cons, List.length_cons, List.append_assoc,
      decodeStrings, decodeString_append _ _ (h s (by simp))]
    simp [ih _ (fun t ht => h t (by simp [ht]))]

theorem decodeStringList_append (l : List String) (rest : List Nat)
    (hlen : l.length < 2 ^ 32) (h : ∀ s ∈ l, s.data.length < 2 ^ 32) :
    decodeStringList (encodeStringList l ++ rest) = some (l, rest) := by
  have h4 : l.length < 256 ^ 4 := by
    have h3 : (256 : Nat) ^ 4 = 2 ^ 32 := by norm_num
    omega
  rw [encodeStringList, decodeStringList, List.append_assoc,
    decodeNatBE_append _ _ _ h4]
  simp [decodeStrings_append _ _ h]

theorem decodeInt32_append (i : Int) (rest : List Nat)
    (h1 : -(2 ^ 31) ≤ i) (h2 : i < 2 ^ 31) :
    decodeInt32 (encodeInt32 i ++ rest) = some (i, rest) := by
  have hnn : 0 ≤ i % (2 ^ 32 : Int) := Int.emod_nonneg i (by norm_num)
  have hlt : i % (2 ^ 32 : Int) < 2 ^ 32 := Int.emod_lt_of_pos i (by norm_num)
  have hb : (i % (2 ^ 32 : Int)).toNat < 256 ^ 4 := by
    have h3 : (256 : Nat) ^ 4 = 2 ^ 32 := by norm_num
    rw [h3]
    omega
  rw [encodeInt32, decodeInt32, decodeNatBE_append _ _ _ hb]
  simp only [Option.some.injEq, Prod.mk.injEq, and_true]
  split <;> omega

theorem decodeBool_append (b : Bool) (rest : List Nat) :
    decodeBool (encodeBool b ++ rest) = some (b, rest) := by
  cases b <;> rfl

theorem decodePartition_append (p : Partition) (rest : List Nat)
    (h : p.wf) :
    decodePartition (encodePartition p ++ rest) = some (p, rest) := by
  obtain ⟨hid1, hid2, hep, hlep, hstream, hleader, hrep, hisr, hreps, hisrs⟩ := h
  have hep8 : p.epoch < 256 ^ 8 := by
    have h3 : (256 : Nat) ^ 8 = 2 ^ 64 := by norm_num
    omega
  have hlep8 : p.leaderEpoch < 256 ^ 8 := by
    have h3 : (256 : Nat) ^ 8 = 2 ^ 64 := by norm_num
    omega
  rw [encodePartition, decodePartition]
  simp only [List.append_assoc]
  rw [decodeString_append _ _ hstream]
  simp only [decodeInt32_append _ _ hid1 hid2,
    decodeStringList_append _ _ hrep hreps, decodeStringList_append _ _ hisr hisrs,
    decodeString_append _ _ hleader, decodeNatBE_append _ _ _ hep8,
    decodeNatBE_append _ _ _ hlep8, decodeBool_append]

theorem decodePartitions_append (ps : List Partition) : ∀ rest : List Nat,
    (∀ p ∈ ps, p.wf) →
    decodePartitions ps.length ((ps.map encodePartition).flatten ++ rest) =
      some (ps, rest) := by
  induction ps with
  | nil => intro rest _; simp [decodePartitions]
  | cons p ps ih =>
    intro rest h
    rw [List.map_cons, List.flatten_cons, List.length_cons, List.append_assoc,
      decodePartitions, decodePartition_append _ _ (h p (by simp))]
    simp only [ih _ (fun q hq => h q (by simp [hq]))]

theorem unmarshalSnapshot_marshalSnapshot (ps : List Partition)
    (hlen : ps.length < 2 ^ 32) (h : ∀ p ∈ ps, p.wf) :
    unmarshalSnapshot (marshalSnapshot ps) = some ps := by
  have h4 : ps.length < 256 ^ 4 := by
    have h3 : (256 : Nat) ^ 4 = 2 ^ 32 := by norm_num
    omega
  have hd : decodePartitions ps.length ((ps.map encodePartition).flatten) =
      some (ps, []) := by
    have := decodePartitions_append ps [] h
    rwa [List.append_nil] at this
  rw [marshalSnapshot, unmarshalSnapshot, decodeNatBE_append _ _ _ h4]
  simp only [hd]

theorem getPartition_eq_none (m : Metadata) (stream : String) (id : Int)
    (h : ∀ q ∈ m, ¬(q.stream = stream ∧ q.id = id)) :
    getPartition m stream id = none := by
  rw [getPartition, List.find?_eq_none]
  intro q hq
  simp only [Partition.hasKey, Bool.and_eq_true, decide_eq_true_eq]
  exact fun hk => h q hq ⟨hk.1, hk.2⟩

theorem createAll_append (ps : List Partition) : ∀ acc : Metadata,
    (∀ p ∈ ps, ∀ q ∈ acc, ¬(q.stream = p.stream ∧ q.id = p.id)) →
    ps.Pairwise (fun p q => ¬(p.stream = q.stream ∧ p.id = q.id)) →
    createAll acc ps = .ok (acc ++ ps) := by
  induction ps with
  | nil => intro acc _ _; simp [createAll]
  | cons p ps ih =>
    intro acc hacc hpw
    have hnone : getPartition acc p.stream p.id = none :=
      getPartition_eq_none acc p.stream p.id (hacc p (by simp))
    rw [createAll, applyCreatePartition, addPartition, hnone]
    show createAll (acc ++ [p]) ps = Except.ok (acc ++ p :: ps)
    rw [ih (acc ++ [p]) ?_ (List.Pairwise.of_cons hpw)]
    · rw [List.append_assoc, List.singleton_append]
    · intro q hq r hr
      rcases List.mem_append.mp hr with hr1 | hr1
      · exact hacc q (by simp [hq]) r hr1
      · have : r = p := by simpa using hr1
        subst this
        exact (List.pairwise_cons.mp hpw).1 q hq

/-- C4 helper: the observable behaviour of Restore on the bytes produced by
Persist on the snapshot of a wellformed metadata state. -/
theorem restore_persist (m : Metadata) (h : m.wf) :
    restoreFsm (persistSnapshot (snapshotFsm m)) = .ok m := by
  obtain ⟨hlen, hwf, hdist, hmar⟩ := h
  have hm4 : (marshalSnapshot m).length < 256 ^ 4 := by
    have h3 : (256 : Nat) ^ 4 = 2 ^ 32 := by norm_num
    omega
  rw [snapshotFsm, persistSnapshot, restoreFsm]
  rw [takeBytes_of_length_eq _ _ _ (length_natToBytesBE 4 (marshalSnapshot m).length)]
  simp only [bytesToNatBE_natToBytesBE _ _ hm4]
  have htake : takeBytes (marshalSnapshot m).length (marshalSnapshot m) =
      some (marshalSnapshot m, []) := by
    rw [takeBytes, if_pos le_rfl, List.take_length, List.drop_length]
  rw [htake]
  simp only [unmarshalSnapshot_marshalSnapshot m hlen hwf]
  have := createAll_append m [] (by simp) hdist
  rw [List.nil_append] at this
  exact this

/-! ## Metadata lookup lemmas -/

theorem hasKey_of_getPartition (m : Metadata) (stream : String) (id : Int)
    (p : Partition) (h : getPartition m stream id = some p) :
    p.hasKey stream id = true := by
  rw [getPartition] at h
  simpa using List.find?_some h

theorem getPartition_update (m : Metadata) (stream : String) (id : Int)
    (q : Partition) (hq : q.hasKey stream id = true) :
    ∀ p, getPartition m stream id = some p →
      getPartition (updatePartition m stream id q) stream id = some q := by
  induction m with
  | nil => intro p hp; simp [getPartition] at hp
  | cons a t ih =>
    intro p hp
    rw [getPartition] at hp ⊢
    rw [updatePartition, List.map_cons]
    by_cases ha : a.hasKey stream id = true
    · rw [if_pos ha, List.find?_cons]
      simp [hq]
    · have ha2 : a.hasKey stream id = false := by simpa using ha
      rw [if_neg ha, List.find?_cons]
      rw [List.find?_cons] at hp
      simp only [ha2] at hp ⊢
      exact ih p hp

/-! ## C1: epoch monotonicity of the ISR and leader mutations -/

theorem applyShrinkISR_changed (m : Metadata) (stream r : String) (pid : Int)
    (e : Nat) (p : Partition) (hget : getPartition m stream pid = some p)
    (m1 : Metadata) (hok : applyShrinkISR m stream r pid e = .ok m1)
    (hne : m1 ≠ m) :
    p.epoch < e ∧ ∃ p1, getPartition m1 stream pid = some p1 ∧ p1.epoch = e := by
  rw [applyShrinkISR, hget] at hok
  dsimp only at hok
  by_cases he : p.epoch ≥ e
  · rw [if_pos he] at hok; cases hok; exact absurd rfl hne
  · rw [if_neg he, Partition.removeFromISR] at hok
    refine ⟨by omega, ?_⟩
    by_cases hr : r ∈ p.replicas
    · rw [if_pos hr] at hok
      cases hok
      have hk := hasKey_of_getPartition m stream pid p hget
      refine ⟨_, getPartition_update m stream pid _ ?_ p hget, rfl⟩
      simpa [Partition.hasKey, Partition.setEpoch] using hk
    · rw [if_neg hr] at hok; exact absurd hok (by simp)

theorem applyExpandISR_changed (m : Metadata) (stream r : String) (pid : Int)
    (e : Nat) (p : Partition) (hget : getPartition m stream pid = some p)
    (m1 : Metadata) (hok : applyExpandISR m stream r pid e = .ok m1)
    (hne : m1 ≠ m) :
    p.epoch < e ∧ ∃ p1, getPartition m1 stream pid = some p1 ∧ p1.epoch = e := by
  rw [applyExpandISR, hget] at hok
  dsimp only at hok
  by_cases he : p.epoch ≥ e
  · rw [if_pos he] at hok; cases hok; exact absurd rfl hne
  · rw [if_neg he, Partition.addToISR] at hok
    refine ⟨by omega, ?_⟩
    by_cases hr : r ∈ p.replicas
    · rw [if_pos hr] at hok
      cases hok
      have hk := hasKey_of_getPartition m stream pid p hget
      refine ⟨_, getPartition_update m stream pid _ ?_ p hget, rfl⟩
      simpa [Partition.hasKey, Partition.setEpoch] using hk
    · rw [if_neg hr] at hok; exact absurd hok (by simp)

theorem applyChangeStreamLeader_changed (m : Metadata) (stream r : String)
    (pid : Int) (e : Nat) (p : Partition)
    (hget : getPartition m stream pid = some p) (m1 : Metadata)
    (hok : applyChangeStreamLeader m stream r pid e = .ok m1) (hne : m1 ≠ m) :
    p.epoch < e ∧ ∃ p1, getPartition m1 stream pid = some p1 ∧ p1.epoch = e := by
  rw [applyChangeStreamLeader, hget] at hok
  dsimp only at hok
  by_cases he : p.epoch ≥ e
  · rw [if_pos he] at hok; cases hok; exact absurd rfl hne
  · rw [if_neg he, Partition.setLeader] at hok
    refine ⟨by omega, ?_⟩
    cases hok
    have hk := hasKey_of_getPartition m stream pid p hget
    refine ⟨_, getPartition_update m stream pid _ ?_ p hget, rfl⟩
    simpa [Partition.hasKey, Partition.setEpoch] using hk

/-- C1: for the ShrinkISR, ExpandISR and ChangeLeader mutations carrying
epoch e, a target partition whose epoch is at least e leaves the state
unchanged with no error, and any application that changes the state happens
only when the partition epoch was strictly below e and installs exactly
epoch e on the partition, so applied mutations carry strictly increasing
epochs. -/
theorem fsm_epoch_monotonicity (m : Metadata) (stream r : String) (pid : Int)
    (e : Nat) (p : Partition) (hget : getPartition m stream pid = some p) :
    (p.epoch ≥ e →
      applyShrinkISR m stream r pid e = .ok m ∧
      applyExpandISR m stream r pid e = .ok m ∧
      applyChangeStreamLeader m stream r pid e = .ok m) ∧
    (∀ m1, m1 ≠ m →
      (applyShrinkISR m stream r pid e = .ok m1 ∨
       applyExpandISR m stream r pid e = .ok m1 ∨
       applyChangeStreamLeader m stream r pid e = .ok m1) →
      p.epoch < e ∧ ∃ p1, getPartition m1 stream pid = some p1 ∧
        p1.epoch = e) := by
  constructor
  · intro he
    refine ⟨?_, ?_, ?_⟩
    · rw [applyShrinkISR, hget]
      dsimp only
      rw [if_pos he]
    · rw [applyExpandISR, hget]
      dsimp only
      rw [if_pos he]
    · rw [applyChangeStreamLeader, hget]
      dsimp only
      rw [if_pos he]
  · intro m1 hne hok
    rcases hok with h | h | h
    · exact applyShrinkISR_changed m stream r pid e p hget m1 h hne
    · exact applyExpandISR_changed m stream r pid e p hget m1 h hne
    · exact applyChangeStreamLeader_changed m stream r pid e p hget m1 h hne

/-- C1 witness: on the concrete store mW, whose only partition has epoch 5,
a ShrinkISR with epoch 3 is a no-op returning no error. -/
theorem fsm_epoch_monotonicity_witness :
    applyShrinkISR mW "s" "b" 0 3 = .ok mW :=
  ((fsm_epoch_monotonicity mW "s" "b" 0 3 pW (by decide)).1 (by decide)).1

/-! ## C2: missing partition on ShrinkISR, ExpandISR, ChangeLeader -/

/-- C2 counterexample: applying a ShrinkISR for a partition that does not
exist makes apply return an error (the path on which Apply panics), carrying
the generic fmt.Errorf value, which is not the PartitionNotFound sentinel;
the claim that the sentinel is returned as the Apply result fails here. -/
theorem fsm_missing_partition_counterexample :
    applyFsm [] (.shrinkISR "foo" "r" 0) 5 =
      .error (.noSuchPartition "foo" 0) ∧
    FsmError.noSuchPartition "foo" 0 ≠ FsmError.partitionNotFound := by
  exact ⟨rfl, by simp⟩

/-- C2 amended: a ShrinkISR, ExpandISR or ChangeLeader entry naming a
missing partition makes apply return a generic No-such-partition error as an
error value, which aborts the FSM (Apply panics unless the server is
shutting down); the error is not the PartitionNotFound sentinel, and no
sentinel result is produced for these operations. -/
theorem fsm_missing_partition_is_fatal (m : Metadata) (stream r : String)
    (pid : Int) (e : Nat) (h : getPartition m stream pid = none) :
    applyFsm m (.shrinkISR stream r pid) e =
      .error (.noSuchPartition stream pid) ∧
    applyFsm m (.expandISR stream r pid) e =
      .error (.noSuchPartition stream pid) ∧
    applyFsm m (.changeLeader stream r pid) e =
      .error (.noSuchPartition stream pid) ∧
    FsmError.noSuchPartition stream pid ≠ FsmError.partitionNotFound := by
  refine ⟨?_, ?_, ?_, by simp⟩
  · simp [applyFsm, applyShrinkISR, h]
  · simp [applyFsm, applyExpandISR, h]
  · simp [applyFsm, applyChangeStreamLeader, h]

/-- C2 witness: the amended statement at a concrete input. -/
theorem fsm_missing_partition_is_fatal_witness :
    applyFsm [] (.shrinkISR "foo" "r" 0) 7 =
      .error (.noSuchPartition "foo" 0) :=
  (fsm_missing_partition_is_fatal [] "foo" "r" 0 7 rfl).1

/-! ## C3: CreatePartition sets the epochs from the entry index -/

/-- C3: a CreatePartition applied at index i creates the partition with
epoch and leader epoch both equal to i; when the partition already exists,
the PartitionExists sentinel is returned as the result value and the store
is unchanged. -/
theorem createPartition_spec (m : Metadata) (p : Partition) (i : Nat) :
    (getPartition m p.stream p.id = none →
      applyFsm m (.createPartition p) i =
        .ok (none, m ++ [{ p with leaderEpoch := i, epoch := i }]) ∧
      ({ p with leaderEpoch := i, epoch := i } : Partition).epoch = i ∧
      ({ p with leaderEpoch := i, epoch := i } : Partition).leaderEpoch = i) ∧
    (getPartition m p.stream p.id ≠ none →
      applyFsm m (.createPartition p) i = .ok (some .partitionExists, m)) := by
  constructor
  · intro h
    refine ⟨?_, rfl, rfl⟩
    simp [applyFsm, applyCreatePartition, addPartition, h]
  · intro h
    obtain ⟨q, hq⟩ := Option.ne_none_iff_exists'.mp h
    simp [applyFsm, applyCreatePartition, addPartition, hq]

/-- C3 witness: the created partition at index 42 on the empty store. -/
theorem createPartition_spec_witness :
    applyFsm [] (.createPartition pW) 42 =
      .ok (none, [{ pW with leaderEpoch := 42, epoch := 42 }]) :=
  ((createPartition_spec [] pW 42).1 rfl).1

/-! ## C4: snapshot persist and restore round trip -/

theorem mem_natToBytesBE (k : Nat) : ∀ n, ∀ b ∈ natToBytesBE k n, b < 256 := by
  induction k with
  | zero => intro n b hb; simp [natToBytesBE] at hb
  | succ k ih =>
    intro n b hb
    rw [natToBytesBE] at hb
    rcases List.mem_append.mp hb with h | h
    · exact ih _ b h
    · have : b = n % 256 := by simpa using h
      subst this
      exact Nat.mod_lt _ (by norm_num)

/-- C4: persisting the snapshot of a wellformed metadata state writes a
4-byte big-endian length followed by exactly that many bytes of encoded
snapshot, and Restore on those bytes rebuilds the same metadata state from
an empty store. -/
theorem snapshot_roundtrip_spec (m : Metadata) (h : m.wf) :
    restoreFsm (persistSnapshot (snapshotFsm m)) = .ok m ∧
    persistSnapshot (snapshotFsm m) =
      natToBytesBE 4 (marshalSnapshot m).length ++ marshalSnapshot m ∧
    (natToBytesBE 4 (marshalSnapshot m).length).length = 4 ∧
    bytesToNatBE (natToBytesBE 4 (marshalSnapshot m).length) =
      (marshalSnapshot m).length ∧
    ∀ b ∈ natToBytesBE 4 (marshalSnapshot m).length, b < 256 := by
  have hm4 : (marshalSnapshot m).length < 256 ^ 4 := by
    have h3 : (256 : Nat) ^ 4 = 2 ^ 32 := by norm_num
    have := h.2.2.2
    omega
  exact ⟨restore_persist m h, rfl, length_natToBytesBE 4 _,
    bytesToNatBE_natToBytesBE 4 _ hm4, mem_natToBytesBE 4 _⟩

/-- C4 witness: the round trip on the concrete store mW. -/
theorem snapshot_roundtrip_spec_witness :
    mW.wf ∧ restoreFsm (persistSnapshot (snapshotFsm mW)) = .ok mW :=
  ⟨by decide, (snapshot_roundtrip_spec mW (by decide)).1⟩

/-! ## C5: the recovery barrier -/

theorem scanBack_some (store : RaftStore) (applyIndex commitIndex : Nat) :
    ∀ steps i b, scanBack store applyIndex commitIndex i steps = .ok (some b) →
      i + 1 - steps ≤ b ∧ b ≤ i ∧ store b = some .command ∧
      ∀ j, b < j → j ≤ i → store j = some .other := by
  intro steps
  induction steps with
  | zero => intro i b h; simp [scanBack] at h
  | succ k ih =>
    intro i b h
    rw [scanBack] at h
    by_cases hc : i = applyIndex ∧ applyIndex = commitIndex
    · rw [if_pos hc] at h; simp at h
    · rw [if_neg hc] at h
      cases hst : store i with
      | none => rw [hst] at h; dsimp only at h; simp at h
      | some t =>
        rw [hst] at h
        cases t with
        | command =>
          dsimp only at h
          have hb : i = b := by simpa using h
          subst hb
          exact ⟨by omega, le_refl i, hst, fun j hj1 hj2 => by omega⟩
        | other =>
          dsimp only at h
          obtain ⟨h1, h2, h3, h4⟩ := ih (i - 1) b h
          refine ⟨by omega, by omega, h3, ?_⟩
          intro j hj1 hj2
          by_cases hji : j = i
          · subst hji; exact hst
          · exact h4 j hj1 (by omega)

/-- C5 counterexample: with command entries at indices 1 and 2, commit index
2 and first index 1, the first Apply at index 1 records the entry at index 2
as the recovery barrier, although 2 is not strictly less than the applied
index 1; the barrier predicted by the claim (the newest command entry with
index below 1) does not exist. -/
theorem recovery_scan_counterexample :
    recoverLatestCommittedFSMLog storeC5 2 1 1 = .ok (some 2) ∧
    ¬((2 : Nat) < 1) := by
  exact ⟨rfl, by omega⟩

/-- C5 amended: on the first Apply the recovery barrier is the newest
committed command entry found scanning backwards from commit index to first
index, regardless of its relation to the applied index, except that no
barrier is recorded when the log is empty (first index 0) or when the
applied index equals the commit index; while the barrier is set, an entry is
applied recovered exactly when its index is at most the barrier, and
finishedRecovery is invoked exactly on the barrier entry, dropping the
barrier. -/
theorem recovery_barrier_spec (store : RaftStore)
    (commitIndex firstIndex applyIndex : Nat) :
    (firstIndex = 0 →
      recoverLatestCommittedFSMLog store commitIndex firstIndex applyIndex =
        .ok none) ∧
    (applyIndex = commitIndex →
      recoverLatestCommittedFSMLog store commitIndex firstIndex applyIndex =
        .ok none) ∧
    (∀ b, recoverLatestCommittedFSMLog store commitIndex firstIndex
        applyIndex = .ok (some b) →
      firstIndex ≤ b ∧ b ≤ commitIndex ∧ store b = some .command ∧
      ∀ j, b < j → j ≤ commitIndex → store j = some .other) ∧
    (∀ st lIdx b, st.recoveryStarted = true →
      st.latestRecoveredLog = some b →
      applyRecovery store commitIndex firstIndex st lIdx =
        .ok ⟨⟨true, if lIdx = b then none else some b⟩,
          decide (lIdx ≤ b), decide (lIdx = b)⟩) ∧
    (∀ st lIdx, st.recoveryStarted = true → st.latestRecoveredLog = none →
      applyRecovery store commitIndex firstIndex st lIdx =
        .ok ⟨st, false, false⟩) ∧
    (∀ st lIdx r, st.recoveryStarted = false →
      recoverLatestCommittedFSMLog store commitIndex firstIndex lIdx =
        .ok r →
      applyRecovery store commitIndex firstIndex st lIdx =
        applyRecovery store commitIndex firstIndex ⟨true, r⟩ lIdx) := by
  refine ⟨?_, ?_, ?_, ?_, ?_, ?_⟩
  · intro h0
    rw [recoverLatestCommittedFSMLog, if_pos h0]
  · intro hac
    rw [recoverLatestCommittedFSMLog]
    by_cases h0 : firstIndex = 0
    · rw [if_pos h0]
    · rw [if_neg h0]
      cases hsteps : commitIndex + 1 - firstIndex with
      | zero => rw [scanBack]
      | succ k => rw [scanBack, if_pos ⟨hac.symm, hac⟩]
  · intro b h
    rw [recoverLatestCommittedFSMLog] at h
    by_cases h0 : firstIndex = 0
    · rw [if_pos h0] at h; simp at h
    · rw [if_neg h0] at h
      by_cases hfc : commitIndex + 1 - firstIndex = 0
      · rw [hfc, scanBack] at h; simp at h
      · obtain ⟨h1, h2, h3, h4⟩ :=
          scanBack_some store applyIndex commitIndex _ _ _ h
        exact ⟨by omega, h2, h3, h4⟩
  · intro st lIdx b hrs hlast
    obtain ⟨rs, lt⟩ := st
    simp only at hrs hlast
    subst hrs; subst hlast
    by_cases hle : lIdx ≤ b
    · by_cases heq : lIdx = b
      · simp [applyRecovery, hle, heq]
      · simp [applyRecovery, hle, heq]
    · have heq : ¬(lIdx = b) := by omega
      simp [applyRecovery, hle, heq]
  · intro st lIdx hrs hlast
    obtain ⟨rs, lt⟩ := st
    simp only at hrs hlast
    subst hrs; subst hlast
    simp [applyRecovery]
  · intro st lIdx r hrs hr
    obtain ⟨rs, lt⟩ := st
    simp only at hrs
    subst hrs
    simp [applyRecovery, hr]

/-- C5 witness: with the barrier set at index 2, the entry at index 1 is
applied recovered and finishedRecovery is not yet invoked. -/
theorem recovery_barrier_spec_witness :
    applyRecovery storeC5 2 1 ⟨true, some 2⟩ 1 =
      .ok ⟨⟨true, if 1 = 2 then none else some 2⟩,
        decide ((1 : Nat) ≤ 2), decide ((1 : Nat) = 2)⟩ :=
  (recovery_barrier_spec storeC5 2 1 1).2.2.2.1 ⟨true, some 2⟩ 1 2 rfl rfl

/-! ## Segment waiter lemmas -/

theorem closeAllChans_spec (l : List (Nat × Nat)) : ∀ cs : ChanSys,
    (l.map Prod.snd).Nodup → (∀ x ∈ l, x.2 ∉ cs.closedSet) →
    closeAllChans cs l =
      some { cs with closedSet := (l.map Prod.snd).reverse ++ cs.closedSet } := by
  induction l with
  | nil => intro cs _ _; simp [closeAllChans]
  | cons x l ih =>
    intro cs hnd hmem
    have hnd1 : x.2 ∉ l.map Prod.snd := (List.nodup_cons.mp (by simpa using hnd)).1
    have hnd2 : (l.map Prod.snd).Nodup := (List.nodup_cons.mp (by simpa using hnd)).2
    rw [closeAllChans, ChanSys.closeChan, if_neg (hmem x (by simp))]
    dsimp only
    rw [ih { cs with closedSet := x.2 :: cs.closedSet } hnd2 ?_]
    · simp [List.append_assoc]
    · intro y hy
      simp only [List.mem_cons]
      push_neg
      refine ⟨?_, hmem y (by simp [hy])⟩
      intro hxy
      exact hnd1 (hxy ▸ List.mem_map_of_mem Prod.snd hy)

theorem notifyWaiters_spec (s : Segment) (cs : ChanSys)
    (hnd : (s.waiters.map Prod.snd).Nodup)
    (hmem : ∀ x ∈ s.waiters, x.2 ∉ cs.closedSet) :
    notifyWaiters s cs =
      some ({ s with waiters := [] },
        { cs with closedSet :=
            (s.waiters.map Prod.snd).reverse ++ cs.closedSet }) := by
  rw [notifyWaiters, closeAllChans_spec _ _ hnd hmem]

theorem lookupWaiter_none (s : Segment) (w : Nat)
    (h : lookupWaiter s w = none) : ∀ x ∈ s.waiters, x.1 ≠ w := by
  rw [lookupWaiter, Option.map_eq_none'] at h
  intro x hx
  have := List.find?_eq_none.mp h x hx
  simpa using this

theorem closedSet_bound (ws : List (Nat × Nat)) (cs : ChanSys)
    (hmem : ∀ x ∈ ws, x.2 < cs.count)
    (hcnt : ∀ id ∈ cs.closedSet, id < cs.count) :
    ∀ id ∈ (ws.map Prod.snd).reverse ++ cs.closedSet, id < cs.count := by
  intro id hid
  rcases List.mem_append.mp hid with h | h
  · rw [List.mem_reverse] at h
    obtain ⟨x, hx, rfl⟩ := List.mem_map.mp h
    exact hmem x hx
  · exact hcnt id h

theorem waiterInv_of_empty (s : Segment) (cs : ChanSys)
    (hw : s.waiters = []) (h4 : ∀ id ∈ cs.closedSet, id < cs.count) :
    WaiterInv s cs :=
  ⟨by simp [hw], by simp [hw], by simp [hw], h4⟩

/-- The explicit result of WriteMessageSet on an open segment with a
non-empty entry batch: bytes and entries appended, position advanced, first
offset and write time set only when the first write time was zero, last
offset and write time from the last entry, waiters map emptied with every
waiter channel moved into the closed set. -/
theorem writeMessageSet_open_eq (s : Segment) (cs : ChanSys) (ms : List Nat)
    (first : Entry) (rest : List Entry)
    (hnd : (s.waiters.map Prod.snd).Nodup)
    (hmem : ∀ x ∈ s.waiters, x.2 ∉ cs.closedSet) (hcl : s.closed = false) :
    writeMessageSet s cs ms (first :: rest) =
      .ok ({ s with
              logData := s.logData ++ ms,
              position := s.position + (ms.length : Int),
              firstOffset :=
                if s.firstWriteTime = 0 then first.offset else s.firstOffset,
              firstWriteTime :=
                if s.firstWriteTime = 0 then first.timestamp
                else s.firstWriteTime,
              lastOffset :=
                ((first :: rest).getLast (List.cons_ne_nil first rest)).offset,
              lastWriteTime :=
                ((first :: rest).getLast
                  (List.cons_ne_nil first rest)).timestamp,
              indexEntries := s.indexEntries ++ (first :: rest),
              waiters := [] },
        { cs with closedSet :=
            (s.waiters.map Prod.snd).reverse ++ cs.closedSet }) := by
  obtain ⟨ld, ie, bo, fo, lo, fwt, lwt, pos, mb, ws, sl, cl, rp⟩ := s
  simp only at hcl
  subst hcl
  by_cases hfw : fwt = (0 : Int)
  · rw [writeMessageSet, segWrite, if_neg (by simp)]
    dsimp only
    rw [if_pos hfw]
    rw [notifyWaiters_spec _ _ (by simpa using hnd) (by simpa using hmem)]
    dsimp only
    simp [hfw]
  · rw [writeMessageSet, segWrite, if_neg (by simp)]
    dsimp only
    rw [if_neg hfw]
    rw [notifyWaiters_spec _ _ (by simpa using hnd) (by simpa using hmem)]
    dsimp only
    simp [hfw]

theorem waitForData_inv (s : Segment) (cs : ChanSys) (w : Nat) (pos : Int)
    (h : WaiterInv s cs) :
    WaiterInv (waitForData s cs w pos).1 (waitForData s cs w pos).2.1 := by
  obtain ⟨hnd1, hnd2, hmem, hcnt⟩ := h
  rw [waitForData]
  cases hlw : lookupWaiter s w with
  | some ch =>
    dsimp only
    exact ⟨hnd1, hnd2, hmem, hcnt⟩
  | none =>
    dsimp only [ChanSys.makeChan]
    by_cases hc : s.position > pos ∨ s.position ≥ s.maxBytes
    · rw [if_pos hc]
      dsimp only
      refine ⟨hnd1, hnd2, ?_, ?_⟩
      · intro x hx
        have hx2 := hmem x hx
        have hne : x.2 ≠ cs.count := by omega
        exact ⟨by simp [hne, hx2.1], by dsimp only; omega⟩
      · intro id hid
        rcases List.mem_cons.mp hid with rfl | hid2
        · dsimp only; omega
        · have := hcnt id hid2
          dsimp only
          omega
    · rw [if_neg hc]
      dsimp only
      have hkeys := lookupWaiter_none s w hlw
      refine ⟨?_, ?_, ?_, ?_⟩
      · rw [List.map_cons]
        refine List.nodup_cons.mpr ⟨?_, hnd1⟩
        intro hw
        obtain ⟨x, hx, hfx⟩ := List.mem_map.mp hw
        exact hkeys x hx hfx
      · rw [List.map_cons]
        refine List.nodup_cons.mpr ⟨?_, hnd2⟩
        intro hw
        obtain ⟨x, hx, hfx⟩ := List.mem_map.mp hw
        have := (hmem x hx).2
        dsimp only at hfx
        omega
      · intro x hx
        rcases List.mem_cons.mp hx with rfl | hx2
        · refine ⟨?_, by dsimp only; omega⟩
          dsimp only
          intro hmm
          have := hcnt _ hmm
          omega
        · have := hmem x hx2
          exact ⟨this.1, by dsimp only; omega⟩
      · intro id hid
        dsimp only at hid ⊢
        have := hcnt id hid
        omega

theorem waitForLEO_inv (s : Segment) (cs : ChanSys) (w : Nat) (leo : Int)
    (h : WaiterInv s cs) :
    WaiterInv (waitForLEO s cs w leo).1 (waitForLEO s cs w leo).2.1 := by
  obtain ⟨hnd1, hnd2, hmem, hcnt⟩ := h
  rw [waitForLEO]
  by_cases hne : s.lastOffset ≠ leo
  · rw [if_pos hne]
    dsimp only [ChanSys.makeChan]
    refine ⟨hnd1, hnd2, ?_, ?_⟩
    · intro x hx
      have hx2 := hmem x hx
      have hnex : x.2 ≠ cs.count := by omega
      exact ⟨by simp [hnex, hx2.1], by dsimp only; omega⟩
    · intro id hid
      rcases List.mem_cons.mp hid with rfl | hid2
      · dsimp only; omega
      · have := hcnt id hid2
        dsimp only
        omega
  · rw [if_neg hne]
    exact waitForData_inv s cs w s.position ⟨hnd1, hnd2, hmem, hcnt⟩

theorem stepOp_preserves (op : SegOp) (s : Segment) (cs : ChanSys)
    (h : WaiterInv s cs) :
    stepOp s cs op ≠ .error .doubleClosePanic ∧
    ∀ s1 cs1, stepOp s cs op = .ok (s1, cs1) → WaiterInv s1 cs1 := by
  obtain ⟨hnd1, hnd2, hmem, hcnt⟩ := h
  cases op with
  | write ms entries =>
    by_cases hcl : s.closed = true
    · have hw : writeMessageSet s cs ms entries = .error .segmentClosed := by
        rw [writeMessageSet, segWrite, if_pos hcl]
      rw [stepOp, hw]
      dsimp only
      refine ⟨by simp, fun s1 cs1 hh => ?_⟩
      simp only [Except.ok.injEq, Prod.mk.injEq] at hh
      obtain ⟨rfl, rfl⟩ := hh
      exact ⟨hnd1, hnd2, hmem, hcnt⟩
    · have hcl2 : s.closed = false := by simpa using hcl
      cases entries with
      | nil =>
        have hw : writeMessageSet s cs ms [] = .error .emptyEntriesPanic := by
          rw [writeMessageSet, segWrite, if_neg (by simp [hcl2])]
        rw [stepOp, hw]
        dsimp only
        exact ⟨by simp, fun s1 cs1 hh => by simp at hh⟩
      | cons first rest =>
        have hw := writeMessageSet_open_eq s cs ms first rest hnd2
          (fun x hx => (hmem x hx).1) hcl2
        rw [stepOp, hw]
        dsimp only
        refine ⟨by simp, fun s1 cs1 hh => ?_⟩
        simp only [Except.ok.injEq, Prod.mk.injEq] at hh
        obtain ⟨rfl, rfl⟩ := hh
        exact waiterInv_of_empty _ _ rfl
          (closedSet_bound s.waiters cs (fun x hx => (hmem x hx).2) hcnt)
  | sealOp =>
    by_cases hsl : s.sealed = true
    · have hw : sealSeg s cs = some (s, cs) := by rw [sealSeg, if_pos hsl]
      rw [stepOp, hw]
      dsimp only
      refine ⟨by simp, fun s1 cs1 hh => ?_⟩
      simp only [Except.ok.injEq, Prod.mk.injEq] at hh
      obtain ⟨rfl, rfl⟩ := hh
      exact ⟨hnd1, hnd2, hmem, hcnt⟩
    · have hw : sealSeg s cs =
          some ({ { s with sealed := true } with waiters := [] },
            { cs with closedSet :=
              (s.waiters.map Prod.snd).reverse ++ cs.closedSet }) := by
        rw [sealSeg, if_neg hsl]
        exact notifyWaiters_spec _ _ (by simpa using hnd2)
          (by intro x hx; exact (hmem x (by simpa using hx)).1)
      rw [stepOp, hw]
      dsimp only
      refine ⟨by simp, fun s1 cs1 hh => ?_⟩
      simp only [Except.ok.injEq, Prod.mk.injEq] at hh
      obtain ⟨rfl, rfl⟩ := hh
      exact waiterInv_of_empty _ _ rfl
        (closedSet_bound s.waiters cs (fun x hx => (hmem x hx).2) hcnt)
  | waitLEO w leo =>
    rw [stepOp]
    refine ⟨by simp, fun s1 cs1 hh => ?_⟩
    simp only [Except.ok.injEq, Prod.mk.injEq] at hh
    obtain ⟨rfl, rfl⟩ := hh
    exact waitForLEO_inv s cs w leo ⟨hnd1, hnd2, hmem, hcnt⟩
  | waitData w pos =>
    rw [stepOp]
    refine ⟨by simp, fun s1 cs1 hh => ?_⟩
    simp only [Except.ok.injEq, Prod.mk.injEq] at hh
    obtain ⟨rfl, rfl⟩ := hh
    exact waitForData_inv s cs w pos ⟨hnd1, hnd2, hmem, hcnt⟩
  | remove w =>
    rw [stepOp]
    refine ⟨by simp, fun s1 cs1 hh => ?_⟩
    simp only [Except.ok.injEq, Prod.mk.injEq] at hh
    obtain ⟨rfl, rfl⟩ := hh
    rw [removeWaiter]
    refine ⟨?_, ?_, ?_, hcnt⟩
    · exact List.Nodup.sublist ((List.filter_sublist _).map Prod.fst) hnd1
    · exact List.Nodup.sublist ((List.filter_sublist _).map Prod.snd) hnd2
    · intro x hx
      exact hmem x (List.mem_of_mem_filter hx)
  | closeOp =>
    rw [stepOp, segmentClose]
    by_cases hcl : s.closed = true
    · rw [if_pos hcl]
      dsimp only
      refine ⟨by simp, fun s1 cs1 hh => ?_⟩
      simp only [Except.ok.injEq, Prod.mk.injEq] at hh
      obtain ⟨rfl, rfl⟩ := hh
      exact ⟨hnd1, hnd2, hmem, hcnt⟩
    · rw [if_neg hcl]
      dsimp only
      refine ⟨by simp, fun s1 cs1 hh => ?_⟩
      simp only [Except.ok.injEq, Prod.mk.injEq] at hh
      obtain ⟨rfl, rfl⟩ := hh
      exact ⟨hnd1, hnd2, hmem, hcnt⟩

theorem runOps_no_double (ops : List SegOp) : ∀ s cs, WaiterInv s cs →
    runOps s cs ops ≠ .error .doubleClosePanic := by
  induction ops with
  | nil => intro s cs _ h; simp [runOps] at h
  | cons op rest ih =>
    intro s cs hinv h
    obtain ⟨hnd, hok⟩ := stepOp_preserves op s cs hinv
    rw [runOps] at h
    cases hstep : stepOp s cs op with
    | error e =>
      rw [hstep] at h
      dsimp only at h
      have he : e = SegError.doubleClosePanic := by simpa using h
      subst he
      exact hnd hstep
    | ok r =>
      rw [hstep] at h
      dsimp only at h
      exact ih r.1 r.2 (hok r.1 r.2 (by rw [hstep])) h

/-! ## C6: WriteMessageSet behaviour -/

/-- C6: WriteMessageSet with a non-empty entry batch fails with
SegmentClosed on a closed segment, and otherwise appends the bytes to the
log and the entries to the index, sets the first offset and first write time
from the first entry only on the first write, always sets the last offset
and last write time from the last entry, advances the position by the number
of bytes written, and signals every registered waiter. -/
theorem writeMessageSet_spec (s : Segment) (cs : ChanSys) (ms : List Nat)
    (first : Entry) (rest : List Entry) (hinv : WaiterInv s cs) :
    (s.closed = true →
      writeMessageSet s cs ms (first :: rest) = .error .segmentClosed) ∧
    (s.closed = false → ∃ s1 cs1,
      writeMessageSet s cs ms (first :: rest) = .ok (s1, cs1) ∧
      s1.logData = s.logData ++ ms ∧
      s1.indexEntries = s.indexEntries ++ (first :: rest) ∧
      s1.position = s.position + (ms.length : Int) ∧
      s1.lastOffset =
        ((first :: rest).getLast (List.cons_ne_nil first rest)).offset ∧
      s1.lastWriteTime =
        ((first :: rest).getLast (List.cons_ne_nil first rest)).timestamp ∧
      (s.firstWriteTime = 0 →
        s1.firstOffset = first.offset ∧
        s1.firstWriteTime = first.timestamp) ∧
      (s.firstWriteTime ≠ 0 →
        s1.firstOffset = s.firstOffset ∧
        s1.firstWriteTime = s.firstWriteTime) ∧
      s1.waiters = [] ∧
      (∀ x ∈ s.waiters, x.2 ∉ cs.closedSet ∧ x.2 ∈ cs1.closedSet)) := by
  obtain ⟨hnd1, hnd2, hmem, hcnt⟩ := hinv
  constructor
  · intro hcl
    rw [writeMessageSet, segWrite, if_pos hcl]
  · intro hcl
    rw [writeMessageSet_open_eq s cs ms first rest hnd2
      (fun x hx => (hmem x hx).1) hcl]
    refine ⟨_, _, rfl, rfl, rfl, rfl, rfl, rfl, ?_, ?_, rfl, ?_⟩
    · intro h
      exact ⟨by simp [h], by simp [h]⟩
    · intro h
      exact ⟨by simp [h], by simp [h]⟩
    · intro x hx
      refine ⟨(hmem x hx).1, ?_⟩
      exact List.mem_append.mpr (Or.inl
        (List.mem_reverse.mpr (List.mem_map_of_mem Prod.snd hx)))

/-- C6 witness: writing two bytes and one entry to the open segment segC8
succeeds and leaves no registered waiter. -/
theorem writeMessageSet_spec_witness :
    segC8.closed = false ∧ WaiterInv segC8 csC8 ∧
    ∃ s1 cs1, writeMessageSet segC8 csC8 [1, 2] [⟨5, 5, 10⟩] =
      .ok (s1, cs1) ∧ s1.waiters = [] := by
  refine ⟨rfl, by decide, ?_⟩
  obtain ⟨s1, cs1, he, _, _, _, _, _, _, _, hw, _⟩ :=
    (writeMessageSet_spec segC8 csC8 [1, 2] ⟨5, 5, 10⟩ [] (by decide)).2 rfl
  exact ⟨s1, cs1, he, hw⟩

/-! ## C7: ReadAt gating and Replace -/

/-- C7: ReadAt fails with SegmentReplaced on a closed and replaced segment,
with SegmentClosed on a closed unreplaced one, and performs the random read
otherwise; Replace always leaves the superseded segment both closed and
replaced, so a reader holding it afterwards receives SegmentReplaced. -/
theorem readAt_replaced_spec (s snew sold : Segment) (off k : Nat) :
    (s.closed = true → s.replaced = true →
      readAt s off k = .error .segmentReplaced) ∧
    (s.closed = true → s.replaced = false →
      readAt s off k = .error .segmentClosed) ∧
    (s.closed = false →
      readAt s off k = .ok ((s.logData.drop off).take k)) ∧
    (∀ r1 r2, replaceSeg snew sold = .ok (r1, r2) →
      r2.closed = true ∧ r2.replaced = true ∧
      readAt r2 off k = .error .segmentReplaced) := by
  refine ⟨?_, ?_, ?_, ?_⟩
  · intro h1 h2
    rw [readAt, if_pos h1, if_pos h2]
  · intro h1 h2
    rw [readAt, if_pos h1, if_neg (by simp [h2])]
  · intro h1
    rw [readAt, if_neg (by simp [h1])]
  · intro r1 r2 h
    rw [replaceSeg] at h
    simp only [Except.ok.injEq, Prod.mk.injEq] at h
    obtain ⟨-, hr2⟩ := h
    subst hr2
    by_cases hc : sold.closed = true
    · rw [if_pos hc]
      exact ⟨hc, rfl, by rw [readAt, if_pos hc, if_pos rfl]⟩
    · rw [if_neg hc]
      exact ⟨rfl, rfl, by rw [readAt, if_pos rfl, if_pos rfl]⟩

/-- C7 witness: reading from the open segment segC8 returns the requested
slice of the log. -/
theorem readAt_replaced_spec_witness :
    readAt segC8 0 2 = .ok ((segC8.logData.drop 0).take 2) :=
  (readAt_replaced_spec segC8 (newSegment 0 100) segC8 0 2).2.2.1 rfl

/-! ## C8: WaitForLEO and WaitForData -/

/-- C8 counterexample: segC8 has five bytes written (position 5) and waiter
0 registered with open channel 0; a WaitForData call for position 3 returns
that existing channel, which is not closed, although data past position 3
exists, contradicting the claim that the returned channel is already closed
whenever position exceeds the target. -/
theorem waitForData_registered_counterexample :
    segC8.position > 3 ∧
    (waitForData segC8 csC8 0 3).2.2 = 0 ∧
    0 ∉ (waitForData segC8 csC8 0 3).2.1.closedSet ∧
    (waitForData segC8 csC8 0 3).2.1 = csC8 := by decide

/-- C8 amended: WaitForLEO returns a fresh already closed channel when the
last offset differs from the given LEO and otherwise defers to waitForData
at the current position; waitForData returns the existing channel of an
already registered waiter unchanged, returns a fresh already closed channel
when the waiter is unregistered and data past the position exists or the
segment is full, and otherwise registers the waiter with a fresh open
channel, the position re-check happening in the same atomic step as the
registration. -/
theorem waitFor_spec (s : Segment) (cs : ChanSys) (w : Nat)
    (pos leo : Int) :
    (s.lastOffset ≠ leo → waitForLEO s cs w leo =
      (s, { cs with count := cs.count + 1,
                    closedSet := cs.count :: cs.closedSet }, cs.count)) ∧
    (s.lastOffset = leo →
      waitForLEO s cs w leo = waitForData s cs w s.position) ∧
    (∀ ch, lookupWaiter s w = some ch →
      waitForData s cs w pos = (s, cs, ch)) ∧
    (lookupWaiter s w = none →
      (s.position > pos ∨ s.position ≥ s.maxBytes) →
      waitForData s cs w pos =
        (s, { cs with count := cs.count + 1,
                      closedSet := cs.count :: cs.closedSet }, cs.count)) ∧
    (lookupWaiter s w = none → s.position ≤ pos → s.position < s.maxBytes →
      waitForData s cs w pos =
        ({ s with waiters := (w, cs.count) :: s.waiters },
          { cs with count := cs.count + 1 }, cs.count)) := by
  refine ⟨?_, ?_, ?_, ?_, ?_⟩
  · intro hne
    rw [waitForLEO, if_pos hne]
    rfl
  · intro heq
    rw [waitForLEO, if_neg (by simp [heq])]
  · intro ch hlw
    rw [waitForData, hlw]
  · intro hlw hc
    rw [waitForData, hlw]
    dsimp only [ChanSys.makeChan]
    rw [if_pos hc]
  · intro hlw h1 h2
    rw [waitForData, hlw]
    dsimp only [ChanSys.makeChan]
    rw [if_neg (show ¬(s.position > pos ∨ s.position ≥ s.maxBytes) by omega)]

/-- C8 witness: the registered waiter of segC8 gets its existing channel
back. -/
theorem waitFor_spec_witness :
    waitForData segC8 csC8 0 3 = (segC8, csC8, 0) :=
  (waitFor_spec segC8 csC8 0 3 0).2.2.1 0 rfl

/-! ## C9: waiter channels are closed exactly once -/

/-- C9: from any state satisfying the waiter invariant, no sequence of
segment operations ever reaches a double close of a waiter channel;
notifyWaiters empties the waiter map, closing each registered channel, which
was open beforehand, exactly once; and a waiter that is already registered
receives its existing channel rather than a new one. -/
theorem waiters_closed_exactly_once (s : Segment) (cs : ChanSys)
    (h : WaiterInv s cs) :
    (∀ ops : List SegOp, runOps s cs ops ≠ .error .doubleClosePanic) ∧
    (∃ s1 cs1, notifyWaiters s cs = some (s1, cs1) ∧ s1.waiters = [] ∧
      ∀ x ∈ s.waiters, x.2 ∉ cs.closedSet ∧ x.2 ∈ cs1.closedSet) ∧
    (∀ w ch pos, lookupWaiter s w = some ch →
      waitForData s cs w pos = (s, cs, ch)) := by
  obtain ⟨hnd1, hnd2, hmem, hcnt⟩ := h
  refine ⟨fun ops => runOps_no_double ops s cs ⟨hnd1, hnd2, hmem, hcnt⟩,
    ?_, ?_⟩
  · refine ⟨_, _,
      notifyWaiters_spec s cs hnd2 (fun x hx => (hmem x hx).1), rfl, ?_⟩
    intro x hx
    refine ⟨(hmem x hx).1, ?_⟩
    exact List.mem_append.mpr (Or.inl
      (List.mem_reverse.mpr (List.mem_map_of_mem Prod.snd hx)))
  · intro w ch pos hlw
    rw [waitForData, hlw]

/-- C9 witness: on segC8 the registered waiter 0 re-registers and receives
its existing channel. -/
theorem waiters_closed_exactly_once_witness :
    waitForData segC8 csC8 0 7 = (segC8, csC8, 0) :=
  (waiters_closed_exactly_once segC8 csC8 (by decide)).2.2 0 0 7 rfl

/-! ## C10: Close is idempotent -/

/-- C10: closing an already closed segment returns nil and leaves the state
unchanged, and any successful Close leaves the closed flag set and changes
nothing else. -/
theorem segmentClose_idempotent (s : Segment) :
    (s.closed = true → segmentClose s = .ok s) ∧
    (∀ s1, segmentClose s = .ok s1 →
      s1.closed = true ∧ s1 = { s with closed := true }) := by
  constructor
  · intro h
    rw [segmentClose, if_pos h]
  · intro s1 h
    rw [segmentClose] at h
    by_cases hc : s.closed = true
    · rw [if_pos hc] at h
      simp only [Except.ok.injEq] at h
      subst h
      refine ⟨hc, ?_⟩
      obtain ⟨ld, ie, bo, fo, lo, fwt, lwt, pos, mb, ws, sl, cl, rp⟩ := s
      simp only at hc
      subst hc
      rfl
    · rw [if_neg hc] at h
      simp only [Except.ok.injEq] at h
      subst h
      exact ⟨rfl, rfl⟩

/-- C10 witness: closing a segment that is already closed returns it
unchanged. -/
theorem segmentClose_idempotent_witness :
    segmentClose { (newSegment 0 100) with closed := true } =
      .ok { (newSegment 0 100) with closed := true } :=
  (segmentClose_idempotent { (newSegment 0 100) with closed := true }).1 rfl

end Liftbridge
